import Mathlib

/-
Verification of the FuelEU Maritime compliance engine
(backend banking / ledger / pooling logic).

Shallow embedding notes:
- Amount and balance columns are `numeric` values manipulated as JS numbers in
  the source; they are modelled as exact rationals (ℚ).
- Each per-key banking operation runs inside a single SQL transaction
  (BEGIN .. COMMIT, with ROLLBACK on any thrown error), so an operation is
  modelled as a function from the pre-state to either an error (state
  unchanged) or the post-state.
- The state for one (shipId, year) key is the `cb_gco2eq` cell of the
  `ship_compliance` row plus the ordered list of `bank_entries.amount_gco2eq`
  values for that key (ordered by `created_at ASC`, i.e. insertion order,
  since `bankSurplusForShip` only ever appends).
-/

namespace FuelEU

/-- State of one (shipId, year) key: the `ship_compliance.cb_gco2eq` cell and
the `bank_entries` amounts for that key in `created_at ASC` order. -/
structure BankState where
  cb : ℚ
  entries : List ℚ
deriving DecidableEq

/-- Errors thrown by the banking code paths. `invalidAmount` is the HTTP 400
rejection of `bankingRoutes` for a non-positive amount; the two insufficiency
errors are thrown by `PostgresBankingRepository`; `deprecatedMethod` is the
unconditional throw of the legacy aggregate repository methods. -/
inductive BankErr where
  | invalidAmount
  | insufficientSurplus
  | insufficientBanked
  | deprecatedMethod
deriving DecidableEq

/-- The FIFO consumption loop of
`PostgresBankingRepository.applyBankedSurplusToShip`: walk the entries in
`created_at ASC` order; stop if nothing remains to consume; delete an entry
whose amount is at most the remaining amount; otherwise reduce that entry by
the remaining amount and stop. -/
def applyConsume (remaining : ℚ) : List ℚ → List ℚ
  | [] => []
  | e :: rest =>
    if remaining ≤ 0 then e :: rest
    else if e ≤ remaining then applyConsume (remaining - e) rest
    else (e - remaining) :: rest

/-- `PostgresBankingRepository.bankSurplusForShip` for one key, given that the
`ship_compliance` row exists (the method first throws if it does not; bank
entries for a key only ever exist after a first successful bank on that key,
which requires the row). -/
def bankSurplusForShip (amount : ℚ) (s : BankState) : Except BankErr BankState :=
  if s.cb < amount then .error .insufficientSurplus
  else .ok { cb := s.cb - amount, entries := s.entries ++ [amount] }

/-- `PostgresBankingRepository.applyBankedSurplusToShip` for one key. -/
def applyBankedSurplusToShip (amount : ℚ) (s : BankState) : Except BankErr BankState :=
  if s.entries.sum < amount then .error .insufficientBanked
  else .ok { cb := s.cb + amount, entries := applyConsume amount s.entries }

/-- The bank operation as exposed by `bankingRoutes` (POST /api/banking/bank):
the route rejects a non-positive amount with HTTP 400 before calling the
repository. -/
def bankOp (amount : ℚ) (s : BankState) : Except BankErr BankState :=
  if amount ≤ 0 then .error .invalidAmount else bankSurplusForShip amount s

/-- The apply operation as exposed by `bankingRoutes` (POST /api/banking/apply):
the route rejects a non-positive amount with HTTP 400 before calling the
repository. -/
def applyOp (amount : ℚ) (s : BankState) : Except BankErr BankState :=
  if amount ≤ 0 then .error .invalidAmount else applyBankedSurplusToShip amount s

/-- Transactional wrapper: a thrown error triggers ROLLBACK, so the observable
state on failure is exactly the pre-state. -/
def bankTx (amount : ℚ) (s : BankState) : BankState × Except BankErr Unit :=
  match bankSurplusForShip amount s with
  | .ok s2 => (s2, .ok ())
  | .error e => (s, .error e)

/-- One banking operation on a single (shipId, year) key. -/
inductive BankOp where
  | bank (amount : ℚ)
  | applyBanked (amount : ℚ)
deriving DecidableEq

def runOp : BankOp → BankState → Except BankErr BankState
  | .bank a, s => bankOp a s
  | .applyBanked a, s => applyOp a s

/-- Run a sequence of banking operations; `none` as soon as one fails. -/
def runOps : List BankOp → BankState → Option BankState
  | [], s => some s
  | op :: ops, s =>
    match runOp op s with
    | .ok s2 => runOps ops s2
    | .error _ => none

/-- Result record returned by the legacy `BankingUseCase` (banking domain
model `BankingResult`). -/
structure BankingResult where
  cbBefore : ℚ
  applied : ℚ
  cbAfter : ℚ
  success : Bool
deriving DecidableEq

/-- `PostgresBankingRepository.bankSurplus` (legacy aggregate method): always
throws `Use bankSurplusForShip method with shipId parameter`. -/
def legacyRepoBankSurplus (_amount : ℚ) : Except BankErr Unit :=
  .error .deprecatedMethod

/-- `BankingUseCase.bankSurplus` (legacy path): returns an unsuccessful result
when the aggregate balance is not positive, otherwise clamps the requested
amount to the balance and delegates to the legacy repository method (which
always throws). -/
def legacyBankSurplus (amount cb : ℚ) : Except BankErr BankingResult :=
  if cb ≤ 0 then
    .ok { cbBefore := cb, applied := 0, cbAfter := cb, success := false }
  else
    let banked := min amount cb
    (legacyRepoBankSurplus banked).map (fun _ =>
      { cbBefore := cb, applied := banked, cbAfter := cb - banked, success := true })

theorem applyConsume_nonpos (l : List ℚ) (r : ℚ) (h : r ≤ 0) :
    applyConsume r l = l := by
  cases l with
  | nil => rfl
  | cons e rest => simp [applyConsume, h]

theorem applyConsume_sum (entries : List ℚ) :
    ∀ r : ℚ, 0 ≤ r → r ≤ entries.sum →
      (applyConsume r entries).sum = entries.sum - r := by
  induction entries with
  | nil =>
    intro r h0 hle
    simp only [List.sum_nil] at hle
    have : r = 0 := le_antisymm hle h0
    simp [applyConsume, this]
  | cons e rest ih =>
    intro r h0 hle
    simp only [List.sum_cons] at hle
    by_cases hr : r ≤ 0
    · have : r = 0 := le_antisymm hr h0
      simp [applyConsume, hr, this]
    · simp only [applyConsume, if_neg hr]
      by_cases he : e ≤ r
      · rw [if_pos he, ih (r - e) (by linarith) (by linarith)]
        simp only [List.sum_cons]
        ring
      · rw [if_neg he]
        simp only [List.sum_cons]
        ring

theorem applyConsume_shape (entries : List ℚ) :
    ∀ r : ℚ, 0 < r → r ≤ entries.sum →
      ∃ k, k ≤ entries.length ∧
        (((entries.take k).sum = r ∧ applyConsume r entries = entries.drop k) ∨
         ((entries.take k).sum < r ∧ ∃ e rest, entries.drop k = e :: rest ∧
           r - (entries.take k).sum < e ∧
           applyConsume r entries = (e - (r - (entries.take k).sum)) :: rest)) := by
  induction entries with
  | nil =>
    intro r hr hle
    simp only [List.sum_nil] at hle
    exact absurd (lt_of_lt_of_le hr hle) (lt_irrefl 0)
  | cons e rest ih =>
    intro r hr hle
    simp only [List.sum_cons] at hle
    by_cases he : e ≤ r
    · by_cases heq : r - e = 0
      · refine ⟨1, by simp, Or.inl ⟨by simp [List.take]; linarith, ?_⟩⟩
        simp only [applyConsume, if_neg (not_le.mpr hr), if_pos he, List.drop_one]
        rw [heq, applyConsume_nonpos rest 0 le_rfl]
        simp
      · have hgt : 0 < r - e := lt_of_le_of_ne (by linarith) (Ne.symm heq)
        obtain ⟨k, hk, hcase⟩ := ih (r - e) hgt (by linarith)
        refine ⟨k + 1, by simpa using hk, ?_⟩
        have hstep : applyConsume r (e :: rest) = applyConsume (r - e) rest := by
          simp [applyConsume, if_neg (not_le.mpr hr), if_pos he]
        rcases hcase with ⟨hsum, hres⟩ | ⟨hsum, e2, rest2, hdrop, hlt, hres⟩
        · exact Or.inl ⟨by simp [List.take, List.sum_cons]; linarith,
            by rw [hstep, hres]; simp [List.drop]⟩
        · refine Or.inr ⟨by simp [List.take, List.sum_cons]; linarith,
            e2, rest2, by simpa [List.drop] using hdrop, ?_, ?_⟩
          · simp only [List.take, List.sum_cons]
            linarith
          · rw [hstep, hres]
            congr 1
            simp only [List.take, List.sum_cons]
            ring
    · refine ⟨0, Nat.zero_le _, Or.inr ⟨by simpa using hr, e, rest, rfl, ?_, ?_⟩⟩
      · simpa using not_le.mp he
      · simp [applyConsume, if_neg (not_le.mpr hr), if_neg he]

/-- Claim C3: for every finite sequence of bank and apply operations on one
(entityId, period) key that each individually succeed, the quantity
ledgerValue + bankedTotal after the sequence equals its value before it; a
successful bank(amount) decrements the ledger by exactly amount and adds bank
entries totalling exactly amount, and a successful apply(amount) removes
exactly amount from the bank entries and increments the ledger by exactly
amount. -/
theorem bank_apply_conservation :
    (∀ (ops : List BankOp) (s s2 : BankState), runOps ops s = some s2 →
      s2.cb + s2.entries.sum = s.cb + s.entries.sum) ∧
    (∀ (a : ℚ) (s s2 : BankState), runOp (.bank a) s = .ok s2 →
      s2.cb = s.cb - a ∧ s2.entries.sum = s.entries.sum + a) ∧
    (∀ (a : ℚ) (s s2 : BankState), runOp (.applyBanked a) s = .ok s2 →
      s2.cb = s.cb + a ∧ s2.entries.sum = s.entries.sum - a) := by
  have hbank : ∀ (a : ℚ) (s s2 : BankState), runOp (.bank a) s = .ok s2 →
      s2.cb = s.cb - a ∧ s2.entries.sum = s.entries.sum + a := by
    intro a s s2 h
    simp only [runOp, bankOp, bankSurplusForShip] at h
    split at h
    · exact absurd h (by simp)
    · split at h
      · exact absurd h (by simp)
      · obtain rfl := (Except.ok.injEq _ _).mp h
        simp
  have happly : ∀ (a : ℚ) (s s2 : BankState), runOp (.applyBanked a) s = .ok s2 →
      s2.cb = s.cb + a ∧ s2.entries.sum = s.entries.sum - a := by
    intro a s s2 h
    simp only [runOp, applyOp, applyBankedSurplusToShip] at h
    by_cases ha : a ≤ 0
    · simp [if_pos ha] at h
    · rw [if_neg ha] at h
      split at h
      · exact absurd h (by simp)
      · obtain rfl := (Except.ok.injEq _ _).mp h
        refine ⟨by simp, ?_⟩
        simp only
        exact applyConsume_sum s.entries a (le_of_lt (not_le.mp ha)) (not_lt.mp (by assumption))
  refine ⟨?_, hbank, happly⟩
  intro ops
  induction ops with
  | nil =>
    intro s s2 h
    simp only [runOps, Option.some.injEq] at h
    rw [h]
  | cons op rest ih =>
    intro s s2 h
    simp only [runOps] at h
    cases hop : runOp op s with
    | error e => rw [hop] at h; exact absurd h (by simp)
    | ok s1 =>
      rw [hop] at h
      have htail := ih s1 s2 h
      cases op with
      | bank a =>
        obtain ⟨h1, h2⟩ := hbank a s s1 hop
        rw [htail, h1, h2]; ring
      | applyBanked a =>
        obtain ⟨h1, h2⟩ := happly a s s1 hop
        rw [htail, h1, h2]; ring

/-- Witness for C3 at Scenario C of the specification: balance 10000, bank
6000 then apply 6000, ending back at balance 10000 with no banked entries. -/
theorem bank_apply_conservation_witness :
    runOps [BankOp.bank 6000, BankOp.applyBanked 6000]
      { cb := 10000, entries := [] } = some { cb := 10000, entries := [] } ∧
    (10000 : ℚ) + ([] : List ℚ).sum = (10000 : ℚ) + ([] : List ℚ).sum := by
  constructor
  · norm_num [runOps, runOp, bankOp, applyOp, bankSurplusForShip,
      applyBankedSurplusToShip, applyConsume]
  · exact bank_apply_conservation.1 [BankOp.bank 6000, BankOp.applyBanked 6000]
      { cb := 10000, entries := [] } { cb := 10000, entries := [] }
      (by norm_num [runOps, runOp, bankOp, applyOp, bankSurplusForShip,
        applyBankedSurplusToShip, applyConsume])

/-- Claim C4: for every successful apply with 0 < amount ≤ total banked, the
bank entries are consumed in FIFO order (oldest first): a full prefix of
entries is deleted, at most one further entry (the next oldest) has its
amount reduced and never below zero, the remaining entries are untouched;
if the amount is smaller than the oldest entry, only that entry is reduced. -/
theorem apply_fifo_consumption (amount : ℚ) (entries : List ℚ)
    (hpos : 0 < amount) (hle : amount ≤ entries.sum) :
    (∀ cb : ℚ, applyBankedSurplusToShip amount { cb := cb, entries := entries } =
      .ok { cb := cb + amount, entries := applyConsume amount entries }) ∧
    (∀ e rest, entries = e :: rest → amount < e →
      applyConsume amount entries = (e - amount) :: rest) ∧
    (∃ k, k ≤ entries.length ∧
      (((entries.take k).sum = amount ∧
          applyConsume amount entries = entries.drop k) ∨
       ((entries.take k).sum < amount ∧ ∃ e rest, entries.drop k = e :: rest ∧
          amount - (entries.take k).sum < e ∧
          0 < e - (amount - (entries.take k).sum) ∧
          applyConsume amount entries =
            (e - (amount - (entries.take k).sum)) :: rest))) := by
  refine ⟨?_, ?_, ?_⟩
  · intro cb
    simp [applyBankedSurplusToShip, if_neg (not_lt.mpr hle)]
  · intro e rest heq hlt
    subst heq
    simp [applyConsume, if_neg (not_le.mpr hpos), if_neg (not_le.mpr hlt)]
  · obtain ⟨k, hk, hcase⟩ := applyConsume_shape entries amount hpos hle
    refine ⟨k, hk, ?_⟩
    rcases hcase with ⟨hsum, hres⟩ | ⟨hsum, e, rest, hdrop, hlt, hres⟩
    · exact Or.inl ⟨hsum, hres⟩
    · exact Or.inr ⟨hsum, e, rest, hdrop, hlt, by linarith, hres⟩

/-- Witness for C4: applying 3 to entries [2, 5] deletes the oldest entry and
reduces the second to 4. -/
theorem apply_fifo_consumption_witness :
    (0 < (3 : ℚ)) ∧ ((3 : ℚ) ≤ ([2, 5] : List ℚ).sum) ∧
    ((∀ cb : ℚ, applyBankedSurplusToShip 3 { cb := cb, entries := [2, 5] } =
      .ok { cb := cb + 3, entries := applyConsume 3 [2, 5] }) ∧
    (∀ e rest, ([2, 5] : List ℚ) = e :: rest → 3 < e →
      applyConsume 3 [2, 5] = (e - 3) :: rest) ∧
    (∃ k, k ≤ ([2, 5] : List ℚ).length ∧
      (((([2, 5] : List ℚ).take k).sum = 3 ∧
          applyConsume 3 [2, 5] = ([2, 5] : List ℚ).drop k) ∨
       ((([2, 5] : List ℚ).take k).sum < 3 ∧
          ∃ e rest, ([2, 5] : List ℚ).drop k = e :: rest ∧
          3 - (([2, 5] : List ℚ).take k).sum < e ∧
          0 < e - (3 - (([2, 5] : List ℚ).take k).sum) ∧
          applyConsume 3 [2, 5] =
            (e - (3 - (([2, 5] : List ℚ).take k).sum)) :: rest)))) :=
  ⟨by norm_num, by norm_num,
    apply_fifo_consumption 3 [2, 5] (by norm_num) (by norm_num)⟩

/-- Claim C5: a bank call whose amount exceeds the current ledger value fails
with the insufficient-surplus error and leaves the ledger value and the bank
entries exactly as they were; no partial (clamped) amount is ever banked.
The legacy clamping path of `BankingUseCase.bankSurplus` never banks either:
any result it returns has applied = 0 and an unchanged balance (its delegate
repository method unconditionally throws). -/
theorem bank_insufficient_surplus_rejected :
    (∀ (amount : ℚ) (s : BankState), s.cb < amount →
      bankTx amount s = (s, .error .insufficientSurplus)) ∧
    (∀ (amount cb : ℚ) (r : BankingResult), legacyBankSurplus amount cb = .ok r →
      r.applied = 0 ∧ r.cbAfter = cb ∧ r.success = false) := by
  constructor
  · intro amount s h
    simp [bankTx, bankSurplusForShip, if_pos h]
  · intro amount cb r h
    simp only [legacyBankSurplus] at h
    split at h
    · obtain rfl := (Except.ok.injEq _ _).mp h
      exact ⟨rfl, rfl, rfl⟩
    · simp [legacyRepoBankSurplus, Except.map] at h

/-- Witness for C5 at Scenario D of the specification: balance 10000, bank
15000 fails with the insufficient-surplus error and leaves the state as is. -/
theorem bank_insufficient_surplus_rejected_witness :
    (BankState.mk 10000 []).cb < 15000 ∧
    bankTx 15000 (BankState.mk 10000 []) =
      (BankState.mk 10000 [], .error .insufficientSurplus) :=
  ⟨by norm_num, bank_insufficient_surplus_rejected.1 15000
    (BankState.mk 10000 []) (by norm_num)⟩

/-
Pool allocation engine: shallow embedding of `PoolUseCase.createPool`
(backend/src/core/application/PoolUseCase.ts) over the `ship_compliance`
table and the pool store written by `PostgresPoolRepository.save`.
Opaque generated fields (pool id, timestamps) are not modelled.
-/

/-- One row of the `ship_compliance` table. -/
structure SCRow where
  shipId : String
  year : Int
  cbGco2eq : ℚ
deriving DecidableEq

/-- `PostgresShipComplianceRepository.findByShipAndYear`. -/
def findByShipAndYear (table : List SCRow) (shipId : String) (year : Int) :
    Option SCRow :=
  table.find? (fun r => r.shipId == shipId && r.year == year)

/-- Domain `PoolMember` (backend/src/core/domain/Pool.ts). -/
structure PoolMember where
  shipId : String
  adjustedCB : ℚ
  cbBefore : ℚ
  cbAfter : ℚ
deriving DecidableEq

/-- Domain `CreatePoolRequest`. -/
structure CreatePoolRequest where
  year : Int
  name : Option String
  memberShipIds : List String
deriving DecidableEq

/-- Domain `Pool` (generated pool id and creation timestamp omitted). -/
structure Pool where
  name : Option String
  year : Int
  members : List PoolMember
  poolSum : ℚ
deriving DecidableEq

/-- A fairness violation collected by the Article 21 validation loop; each
value carries the ship named in the corresponding message string. -/
inductive Violation where
  | deficitWorse (shipId : String) (cbBefore cbAfter : ℚ)
  | surplusNegative (shipId : String) (cbBefore cbAfter : ℚ)
deriving DecidableEq

/-- The errors thrown by `PoolUseCase.createPool`, as typed values carrying
the data interpolated into the thrown message strings. -/
inductive PoolErr where
  | missingBalance (shipId : String) (year : Int)
  | negativePoolSum
  | article21 (violations : List Violation)
deriving DecidableEq

/-- Step 1 of `createPool`: the member-building loop. It walks the requested
ship ids in order, throwing at the first id with no compliance balance for
the year, and otherwise pushes a member with adjustedCB = cbBefore = the
ledger value and a placeholder cbAfter of 0. -/
def resolveMembers (ledger : List SCRow) (year : Int) :
    List String → Except PoolErr (List PoolMember)
  | [] => .ok []
  | shipId :: rest =>
    match findByShipAndYear ledger shipId year with
    | none => .error (.missingBalance shipId year)
    | some row =>
      match resolveMembers ledger year rest with
      | .error e => .error e
      | .ok ms =>
        .ok (PoolMember.mk shipId row.cbGco2eq row.cbGco2eq 0 :: ms)

/-- Step 2 of `createPool`: `members.reduce((sum, m) => sum + m.adjustedCB, 0)`. -/
def poolSumOf (ms : List PoolMember) : ℚ :=
  (ms.map (fun m => m.adjustedCB)).sum

/-- The two Article 21 checks of the validation loop for one member. -/
def memberViolations (cbAfter : ℚ) (m : PoolMember) : List Violation :=
  (if m.cbBefore < 0 ∧ cbAfter < m.cbBefore then
    [Violation.deficitWorse m.shipId m.cbBefore cbAfter] else []) ++
  (if 0 < m.cbBefore ∧ cbAfter < 0 then
    [Violation.surplusNegative m.shipId m.cbBefore cbAfter] else [])

/-- Step 4 of `createPool`: the validation loop collecting every violation
(in member order) rather than stopping at the first. -/
def validateArticle21 (cbAfter : ℚ) (ms : List PoolMember) : List Violation :=
  ms.flatMap (memberViolations cbAfter)

/-- The state touched by pool creation: the `ship_compliance` table (read
only) and the pool store (`pools` plus `pool_members` rows, modelled as the
list of saved pools in insertion order). -/
structure SysState where
  shipCompliance : List SCRow
  pools : List Pool
deriving DecidableEq

/-- `PoolUseCase.createPool` followed by `PostgresPoolRepository.save` on
success. A thrown error leaves the state unchanged (the only write, `save`,
is a single transaction performed after all checks pass). -/
def createPool (s : SysState) (req : CreatePoolRequest) :
    SysState × Except PoolErr Pool :=
  match resolveMembers s.shipCompliance req.year req.memberShipIds with
  | .error e => (s, .error e)
  | .ok ms =>
    let poolSum := poolSumOf ms
    if poolSum < 0 then (s, .error .negativePoolSum)
    else
      let cbAfter := poolSum / (ms.length : ℚ)
      let errs := validateArticle21 cbAfter ms
      if 0 < errs.length then (s, .error (.article21 errs))
      else
        let members := ms.map (fun m => { m with cbAfter := cbAfter })
        let pool : Pool := Pool.mk req.name req.year members poolSum
        ({ s with pools := s.pools ++ [pool] }, .ok pool)


theorem resolveMembers_ok_adjusted (ledger : List SCRow) (year : Int) :
    ∀ (ids : List String) (ms : List PoolMember),
      resolveMembers ledger year ids = .ok ms →
      ∀ m ∈ ms, m.adjustedCB = m.cbBefore ∧ m.cbAfter = 0 := by
  intro ids
  induction ids with
  | nil =>
    intro ms h m hm
    simp only [resolveMembers, Except.ok.injEq] at h
    rw [← h] at hm
    exact absurd hm (List.not_mem_nil m)
  | cons i rest ih =>
    intro ms h m hm
    simp only [resolveMembers] at h
    cases hfind : findByShipAndYear ledger i year with
    | none =>
      simp only [hfind] at h
      exact absurd h (by simp)
    | some row =>
      cases hrec : resolveMembers ledger year rest with
      | error e =>
        simp only [hfind, hrec] at h
        exact absurd h (by simp)
      | ok ms2 =>
        simp only [hfind, hrec, Except.ok.injEq] at h
        rw [← h] at hm
        rcases List.mem_cons.mp hm with rfl | hm2
        · exact ⟨rfl, rfl⟩
        · exact ih ms2 hrec m hm2

theorem resolveMembers_ok_length (ledger : List SCRow) (year : Int) :
    ∀ (ids : List String) (ms : List PoolMember),
      resolveMembers ledger year ids = .ok ms → ms.length = ids.length := by
  intro ids
  induction ids with
  | nil =>
    intro ms h
    simp only [resolveMembers, Except.ok.injEq] at h
    rw [← h]
    rfl
  | cons i rest ih =>
    intro ms h
    simp only [resolveMembers] at h
    cases hfind : findByShipAndYear ledger i year with
    | none =>
      simp only [hfind] at h
      exact absurd h (by simp)
    | some row =>
      cases hrec : resolveMembers ledger year rest with
      | error e =>
        simp only [hfind, hrec] at h
        exact absurd h (by simp)
      | ok ms2 =>
        simp only [hfind, hrec, Except.ok.injEq] at h
        rw [← h]
        simp [ih ms2 hrec]

theorem resolveMembers_error_shape (ledger : List SCRow) (year : Int) :
    ∀ (ids : List String) (e : PoolErr),
      resolveMembers ledger year ids = .error e →
      ∃ i, i ∈ ids ∧ findByShipAndYear ledger i year = none ∧
        e = .missingBalance i year := by
  intro ids
  induction ids with
  | nil =>
    intro e h
    exact absurd h (by simp [resolveMembers])
  | cons i rest ih =>
    intro e h
    simp only [resolveMembers] at h
    cases hfind : findByShipAndYear ledger i year with
    | none =>
      simp only [hfind, Except.error.injEq] at h
      exact ⟨i, List.mem_cons_self i rest, hfind, h.symm⟩
    | some row =>
      cases hrec : resolveMembers ledger year rest with
      | error e2 =>
        simp only [hfind, hrec, Except.error.injEq] at h
        obtain ⟨j, hj, hjf, hje⟩ := ih e2 hrec
        exact ⟨j, List.mem_cons_of_mem i hj, hjf, h ▸ hje⟩
      | ok ms2 =>
        simp only [hfind, hrec] at h
        exact absurd h (by simp)

theorem resolveMembers_error_of_missing (ledger : List SCRow) (year : Int) :
    ∀ ids : List String,
      (∃ i, i ∈ ids ∧ findByShipAndYear ledger i year = none) →
      ∃ i, i ∈ ids ∧ findByShipAndYear ledger i year = none ∧
        resolveMembers ledger year ids = .error (.missingBalance i year) := by
  intro ids
  induction ids with
  | nil =>
    rintro ⟨i, hi, _⟩
    exact absurd hi (List.not_mem_nil i)
  | cons i rest ih =>
    rintro ⟨j, hj, hjf⟩
    cases hfind : findByShipAndYear ledger i year with
    | none =>
      exact ⟨i, List.mem_cons_self i rest, hfind, by
        simp [resolveMembers, hfind]⟩
    | some row =>
      have hjr : j ∈ rest := by
        rcases List.mem_cons.mp hj with rfl | hr
        · rw [hfind] at hjf
          exact absurd hjf (by simp)
        · exact hr
      obtain ⟨k, hk, hkf, hke⟩ := ih ⟨j, hjr, hjf⟩
      exact ⟨k, List.mem_cons_of_mem i hk, hkf, by
        simp [resolveMembers, hfind, hke]⟩

theorem memberViolations_eq_nil_iff (cbAfter : ℚ) (m : PoolMember) :
    memberViolations cbAfter m = [] ↔
      ¬(m.cbBefore < 0 ∧ cbAfter < m.cbBefore) ∧
      ¬(0 < m.cbBefore ∧ cbAfter < 0) := by
  simp only [memberViolations, List.append_eq_nil]
  constructor
  · rintro ⟨h1, h2⟩
    constructor
    · intro hc
      rw [if_pos hc] at h1
      exact absurd h1 (by simp)
    · intro hc
      rw [if_pos hc] at h2
      exact absurd h2 (by simp)
  · rintro ⟨h1, h2⟩
    exact ⟨if_neg h1, if_neg h2⟩

theorem validateArticle21_eq_nil_iff (cbAfter : ℚ) (ms : List PoolMember) :
    validateArticle21 cbAfter ms = [] ↔
      ∀ m ∈ ms, ¬(m.cbBefore < 0 ∧ cbAfter < m.cbBefore) ∧
        ¬(0 < m.cbBefore ∧ cbAfter < 0) := by
  simp only [validateArticle21, List.flatMap_eq_nil_iff]
  constructor
  · intro h m hm
    exact (memberViolations_eq_nil_iff cbAfter m).mp (h m hm)
  · intro h m hm
    exact (memberViolations_eq_nil_iff cbAfter m).mpr (h m hm)

theorem mem_validateArticle21_deficit (cbAfter : ℚ) (ms : List PoolMember)
    (m : PoolMember) (hm : m ∈ ms) (h1 : m.cbBefore < 0)
    (h2 : cbAfter < m.cbBefore) :
    Violation.deficitWorse m.shipId m.cbBefore cbAfter ∈
      validateArticle21 cbAfter ms := by
  simp only [validateArticle21, List.mem_flatMap]
  refine ⟨m, hm, ?_⟩
  simp [memberViolations, if_pos (And.intro h1 h2)]

theorem mem_validateArticle21_surplus (cbAfter : ℚ) (ms : List PoolMember)
    (m : PoolMember) (hm : m ∈ ms) (h1 : 0 < m.cbBefore) (h2 : cbAfter < 0) :
    Violation.surplusNegative m.shipId m.cbBefore cbAfter ∈
      validateArticle21 cbAfter ms := by
  simp only [validateArticle21, List.mem_flatMap]
  refine ⟨m, hm, ?_⟩
  simp [memberViolations, if_pos (And.intro h1 h2)]

theorem validateArticle21_share_nil (ms : List PoolMember)
    (h : 0 ≤ poolSumOf ms) :
    validateArticle21 (poolSumOf ms / (ms.length : ℚ)) ms = [] := by
  have hcb : 0 ≤ poolSumOf ms / (ms.length : ℚ) :=
    div_nonneg h (Nat.cast_nonneg _)
  rw [validateArticle21_eq_nil_iff]
  intro m _
  constructor
  · rintro ⟨h1, h2⟩
    linarith
  · rintro ⟨_, h2⟩
    linarith

theorem createPool_ok_shape (s : SysState) (req : CreatePoolRequest)
    (s2 : SysState) (p : Pool) (h : createPool s req = (s2, .ok p)) :
    ∃ ms, resolveMembers s.shipCompliance req.year req.memberShipIds = .ok ms ∧
      0 ≤ poolSumOf ms ∧
      p = Pool.mk req.name req.year
        (ms.map (fun m => { m with cbAfter := poolSumOf ms / (ms.length : ℚ) }))
        (poolSumOf ms) ∧
      s2 = { s with pools := s.pools ++ [p] } := by
  cases hres : resolveMembers s.shipCompliance req.year req.memberShipIds with
  | error e =>
    simp only [createPool, hres] at h
    exact absurd ((Prod.mk.injEq _ _ _ _).mp h).2 (by simp)
  | ok ms =>
    simp only [createPool, hres] at h
    by_cases hneg : poolSumOf ms < 0
    · rw [if_pos hneg] at h
      exact absurd ((Prod.mk.injEq _ _ _ _).mp h).2 (by simp)
    · rw [if_neg hneg] at h
      by_cases herr :
          0 < (validateArticle21 (poolSumOf ms / (ms.length : ℚ)) ms).length
      · rw [if_pos herr] at h
        exact absurd ((Prod.mk.injEq _ _ _ _).mp h).2 (by simp)
      · rw [if_neg herr] at h
        obtain ⟨h1, h2⟩ := (Prod.mk.injEq _ _ _ _).mp h
        obtain rfl := (Except.ok.injEq _ _).mp h2
        exact ⟨ms, rfl, not_lt.mp hneg, rfl, h1.symm⟩

theorem createPool_error_state (s : SysState) (req : CreatePoolRequest)
    (e : PoolErr) (h : (createPool s req).2 = .error e) :
    (createPool s req).1 = s := by
  cases hres : resolveMembers s.shipCompliance req.year req.memberShipIds with
  | error e2 => simp only [createPool, hres]
  | ok ms =>
    simp only [createPool, hres] at h ⊢
    by_cases hneg : poolSumOf ms < 0
    · rw [if_pos hneg]
    · rw [if_neg hneg] at h ⊢
      by_cases herr :
          0 < (validateArticle21 (poolSumOf ms / (ms.length : ℚ)) ms).length
      · rw [if_pos herr]
      · rw [if_neg herr] at h
        exact absurd h (by simp)

/-- Claim C1: no pool is ever created in which a deficit member exits worse,
a surplus member exits negative, or the pool sum is negative; and the
Article 21 validation loop flags every violating member (not only the first),
so a rejection carries one violation entry per violating member. -/
theorem article21_enforced :
    (∀ (s : SysState) (req : CreatePoolRequest) (s2 : SysState) (p : Pool),
      createPool s req = (s2, .ok p) →
      0 ≤ p.poolSum ∧
      ∀ m ∈ p.members,
        (m.cbBefore < 0 → m.cbBefore ≤ m.cbAfter) ∧
        (0 < m.cbBefore → 0 ≤ m.cbAfter)) ∧
    (∀ (cbAfter : ℚ) (ms : List PoolMember) (m : PoolMember), m ∈ ms →
      (m.cbBefore < 0 → cbAfter < m.cbBefore →
        Violation.deficitWorse m.shipId m.cbBefore cbAfter ∈
          validateArticle21 cbAfter ms) ∧
      (0 < m.cbBefore → cbAfter < 0 →
        Violation.surplusNegative m.shipId m.cbBefore cbAfter ∈
          validateArticle21 cbAfter ms)) ∧
    (∀ (cbAfter : ℚ) (ms : List PoolMember),
      validateArticle21 cbAfter ms = [] ↔
        ∀ m ∈ ms, ¬(m.cbBefore < 0 ∧ cbAfter < m.cbBefore) ∧
          ¬(0 < m.cbBefore ∧ cbAfter < 0)) := by
  refine ⟨?_, ?_, validateArticle21_eq_nil_iff⟩
  · intro s req s2 p h
    obtain ⟨ms, hres, hsum, hp, _⟩ := createPool_ok_shape s req s2 p h
    have hcb : 0 ≤ poolSumOf ms / (ms.length : ℚ) :=
      div_nonneg hsum (Nat.cast_nonneg _)
    subst hp
    refine ⟨hsum, ?_⟩
    intro m hm
    obtain ⟨m0, _, rfl⟩ := List.mem_map.mp hm
    constructor
    · intro h1
      simp only at h1 ⊢
      linarith
    · intro _
      simpa using hcb
  · intro cbA ms m hm
    exact ⟨fun h1 h2 => mem_validateArticle21_deficit cbA ms m hm h1 h2,
           fun h1 h2 => mem_validateArticle21_surplus cbA ms m hm h1 h2⟩

/-- Claim C2: every successfully created pool has poolSum equal to the sum of
its members' cbBefore values, gives every member the same equal share
poolSum / |members| as cbAfter, and hence the cbAfter values sum back to
poolSum. -/
theorem pool_sum_identity (s : SysState) (req : CreatePoolRequest)
    (s2 : SysState) (p : Pool) (h : createPool s req = (s2, .ok p))
    (hne : req.memberShipIds ≠ []) :
    p.poolSum = (p.members.map (fun m => m.cbBefore)).sum ∧
    (∀ m ∈ p.members, m.cbAfter = p.poolSum / (p.members.length : ℚ)) ∧
    (p.members.map (fun m => m.cbAfter)).sum = p.poolSum := by
  obtain ⟨ms, hres, hsum, hp, _⟩ := createPool_ok_shape s req s2 p h
  have hadj := resolveMembers_ok_adjusted _ _ _ _ hres
  have hlen := resolveMembers_ok_length _ _ _ _ hres
  have hlen0 : ms.length ≠ 0 := by
    rw [hlen]
    intro hc
    exact hne (List.length_eq_zero.mp hc)
  have hcast : (ms.length : ℚ) ≠ 0 := Nat.cast_ne_zero.mpr hlen0
  subst hp
  refine ⟨?_, ?_, ?_⟩
  · simp only [poolSumOf, List.map_map]
    congr 1
    apply List.map_congr_left
    intro m0 hm0
    exact (hadj m0 hm0).1
  · intro m hm
    obtain ⟨m0, _, rfl⟩ := List.mem_map.mp hm
    simp [List.length_map]
  · simp only [List.map_map]
    have hconst : ms.map
        ((fun m => m.cbAfter) ∘
          (fun m => { m with cbAfter := poolSumOf ms / (ms.length : ℚ) })) =
        List.replicate ms.length (poolSumOf ms / (ms.length : ℚ)) := by
      exact List.map_const' ms (poolSumOf ms / (ms.length : ℚ))
    simp only [hconst, List.sum_replicate, nsmul_eq_mul]
    field_simp

/-- Claim C6: a successful createPool only appends the new pool (with its
member rows) to the pool store; the ship_compliance ledger is untouched. -/
theorem createPool_frame (s : SysState) (req : CreatePoolRequest)
    (s2 : SysState) (p : Pool) (h : createPool s req = (s2, .ok p)) :
    s2.shipCompliance = s.shipCompliance ∧ s2.pools = s.pools ++ [p] := by
  obtain ⟨ms, _, _, _, hs2⟩ := createPool_ok_shape s req s2 p h
  subst hs2
  exact ⟨rfl, rfl⟩

/-- Claim C9: if some requested member has no compliance balance for the
period, createPool fails with a missing-balance error naming such a member
and the period; and every failing createPool leaves the state unchanged
(no partial pool creation). -/
theorem createPool_missing_balance :
    (∀ (s : SysState) (req : CreatePoolRequest),
      (∃ i, i ∈ req.memberShipIds ∧
        findByShipAndYear s.shipCompliance i req.year = none) →
      ∃ i, i ∈ req.memberShipIds ∧
        findByShipAndYear s.shipCompliance i req.year = none ∧
        (createPool s req).2 = .error (.missingBalance i req.year)) ∧
    (∀ (s : SysState) (req : CreatePoolRequest) (e : PoolErr),
      (createPool s req).2 = .error e → (createPool s req).1 = s) := by
  constructor
  · intro s req hex
    obtain ⟨i, hi, hif, hie⟩ :=
      resolveMembers_error_of_missing s.shipCompliance req.year
        req.memberShipIds hex
    exact ⟨i, hi, hif, by simp [createPool, hie]⟩
  · exact createPool_error_state

/-- Claim C10: once the non-negative pool sum check has passed, the equal
share is non-negative, so no member can violate either Article 21 rule: the
Article21Violation branch of createPool is unreachable, and createPool can
only fail with a missing-balance or negative-pool-sum error. -/
theorem article21_branch_unreachable :
    (∀ ms : List PoolMember, 0 ≤ poolSumOf ms →
      validateArticle21 (poolSumOf ms / (ms.length : ℚ)) ms = []) ∧
    (∀ (s : SysState) (req : CreatePoolRequest) (errs : List Violation),
      (createPool s req).2 ≠ .error (.article21 errs)) ∧
    (∀ (s : SysState) (req : CreatePoolRequest) (e : PoolErr),
      (createPool s req).2 = .error e →
      (∃ i, i ∈ req.memberShipIds ∧
        findByShipAndYear s.shipCompliance i req.year = none ∧
        e = .missingBalance i req.year) ∨ e = .negativePoolSum) := by
  have herrcase : ∀ (s : SysState) (req : CreatePoolRequest) (e : PoolErr),
      (createPool s req).2 = .error e →
      (∃ i, i ∈ req.memberShipIds ∧
        findByShipAndYear s.shipCompliance i req.year = none ∧
        e = .missingBalance i req.year) ∨ e = .negativePoolSum := by
    intro s req e h
    cases hres : resolveMembers s.shipCompliance req.year req.memberShipIds with
    | error e2 =>
      simp only [createPool, hres, Except.error.injEq] at h
      obtain ⟨i, hi, hif, hie⟩ :=
        resolveMembers_error_shape s.shipCompliance req.year
          req.memberShipIds e2 hres
      exact Or.inl ⟨i, hi, hif, by rw [← h, hie]⟩
    | ok ms =>
      simp only [createPool, hres] at h
      by_cases hneg : poolSumOf ms < 0
      · rw [if_pos hneg] at h
        simp only [Except.error.injEq] at h
        exact Or.inr h.symm
      · rw [if_neg hneg] at h
        rw [validateArticle21_share_nil ms (not_lt.mp hneg)] at h
        simp at h
  refine ⟨validateArticle21_share_nil, ?_, herrcase⟩
  intro s req errs hc
  rcases herrcase s req (.article21 errs) hc with ⟨i, _, _, hie⟩ | hie
  · exact PoolErr.noConfusion hie
  · exact PoolErr.noConfusion hie

/-- Scenario A of the specification: three ships with balances -10000,
15000 and 5000 in 2024. -/
def demoState : SysState :=
  SysState.mk
    [SCRow.mk "E1" 2024 (-10000), SCRow.mk "E2" 2024 15000,
     SCRow.mk "E3" 2024 5000] []

def demoReq : CreatePoolRequest :=
  CreatePoolRequest.mk 2024 none ["E1", "E2", "E3"]

def demoPool : Pool :=
  Pool.mk none 2024
    [PoolMember.mk "E1" (-10000) (-10000) (10000 / 3),
     PoolMember.mk "E2" 15000 15000 (10000 / 3),
     PoolMember.mk "E3" 5000 5000 (10000 / 3)] 10000

def demoState2 : SysState :=
  SysState.mk demoState.shipCompliance [demoPool]

/-- The member list built by step 1 of createPool on the demo data. -/
def demoMs : List PoolMember :=
  [PoolMember.mk "E1" (-10000) (-10000) 0,
   PoolMember.mk "E2" 15000 15000 0,
   PoolMember.mk "E3" 5000 5000 0]

theorem createPool_demo :
    createPool demoState demoReq = (demoState2, .ok demoPool) := by
  have h1 : resolveMembers demoState.shipCompliance demoReq.year
      demoReq.memberShipIds = .ok demoMs := by rfl
  have h2 : poolSumOf demoMs = 10000 := by norm_num [poolSumOf, demoMs]
  rw [createPool, h1]
  simp only [h2]
  norm_num [demoMs, demoState2, demoPool, demoState, demoReq,
    validateArticle21, memberViolations]

/-- A member list with one deficit violator and one surplus violator against
a hypothetical negative share, used to exercise the validation loop. -/
def demoViolMs : List PoolMember :=
  [PoolMember.mk "A" (-2) (-2) 0, PoolMember.mk "B" 5 5 0]

/-- Witness for C1: the demo pool satisfies all Article 21 rules, and the
validation loop flags both violating members of `demoViolMs` (not only the
first). -/
theorem article21_enforced_witness :
    createPool demoState demoReq = (demoState2, .ok demoPool) ∧
    (0 ≤ demoPool.poolSum ∧
      ∀ m ∈ demoPool.members,
        (m.cbBefore < 0 → m.cbBefore ≤ m.cbAfter) ∧
        (0 < m.cbBefore → 0 ≤ m.cbAfter)) ∧
    Violation.deficitWorse "A" (-2) (-3) ∈ validateArticle21 (-3) demoViolMs ∧
    Violation.surplusNegative "B" 5 (-3) ∈ validateArticle21 (-3) demoViolMs :=
  ⟨createPool_demo,
   article21_enforced.1 demoState demoReq demoState2 demoPool createPool_demo,
   (article21_enforced.2.1 (-3) demoViolMs (PoolMember.mk "A" (-2) (-2) 0)
      (by simp [demoViolMs])).1 (by norm_num) (by norm_num),
   (article21_enforced.2.1 (-3) demoViolMs (PoolMember.mk "B" 5 5 0)
      (by simp [demoViolMs])).2 (by norm_num) (by norm_num)⟩

/-- Witness for C2 at Scenario A: the demo pool has poolSum 10000, every
member share 10000/3, and the shares sum back to 10000. -/
theorem pool_sum_identity_witness :
    createPool demoState demoReq = (demoState2, .ok demoPool) ∧
    demoReq.memberShipIds ≠ [] ∧
    (demoPool.poolSum = (demoPool.members.map (fun m => m.cbBefore)).sum ∧
     (∀ m ∈ demoPool.members,
       m.cbAfter = demoPool.poolSum / (demoPool.members.length : ℚ)) ∧
     (demoPool.members.map (fun m => m.cbAfter)).sum = demoPool.poolSum) :=
  ⟨createPool_demo, by simp [demoReq],
   pool_sum_identity demoState demoReq demoState2 demoPool createPool_demo
     (by simp [demoReq])⟩

/-- Witness for C6: creating the demo pool appends it to the pool store and
leaves the compliance ledger untouched. -/
theorem createPool_frame_witness :
    createPool demoState demoReq = (demoState2, .ok demoPool) ∧
    demoState2.shipCompliance = demoState.shipCompliance ∧
    demoState2.pools = demoState.pools ++ [demoPool] :=
  ⟨createPool_demo,
   createPool_frame demoState demoReq demoState2 demoPool createPool_demo⟩

/-- A request naming a ship with no compliance balance for 2024. -/
def demoMissReq : CreatePoolRequest :=
  CreatePoolRequest.mk 2024 none ["E1", "EX"]

/-- Witness for C9: requesting a pool with unknown ship EX fails with the
missing-balance error naming EX and 2024, and leaves the state unchanged. -/
theorem createPool_missing_balance_witness :
    (∃ i, i ∈ demoMissReq.memberShipIds ∧
      findByShipAndYear demoState.shipCompliance i demoMissReq.year = none) ∧
    (∃ i, i ∈ demoMissReq.memberShipIds ∧
      findByShipAndYear demoState.shipCompliance i demoMissReq.year = none ∧
      (createPool demoState demoMissReq).2 =
        .error (.missingBalance i demoMissReq.year)) ∧
    (createPool demoState demoMissReq).1 = demoState :=
  ⟨⟨"EX", by decide, by decide⟩,
   createPool_missing_balance.1 demoState demoMissReq ⟨"EX", by decide, by decide⟩,
   createPool_missing_balance.2 demoState demoMissReq
     (.missingBalance "EX" 2024) (by rfl)⟩

/-- Witness for C10: a singleton surplus member list has non-negative pool
sum and an empty violation list for the equal share. -/
theorem article21_branch_unreachable_witness :
    0 ≤ poolSumOf [PoolMember.mk "A" 1 1 0] ∧
    validateArticle21
      (poolSumOf [PoolMember.mk "A" 1 1 0] /
        (([PoolMember.mk "A" 1 1 0] : List PoolMember).length : ℚ))
      [PoolMember.mk "A" 1 1 0] = [] :=
  ⟨by norm_num [poolSumOf],
   article21_branch_unreachable.1 [PoolMember.mk "A" 1 1 0]
     (by norm_num [poolSumOf])⟩

/-
Balance computer: shallow embedding of
`PostgresShipComplianceRepository.computeAndSave` and `save` over the
`routes` and `ship_compliance` tables.
-/

/-- One row of the `routes` table (the columns computeAndSave reads). -/
structure RouteRow where
  routeId : String
  year : Int
  ghgIntensity : ℚ
  fuelConsumption : ℚ
deriving DecidableEq

/-- The fixed regulatory constant COMPLIANCE_TARGET = 89.3368 gCO2e/MJ. -/
def COMPLIANCE_TARGET : ℚ := 893368 / 10000

/-- The first query of computeAndSave:
SELECT .. FROM routes WHERE route_id = $1 AND year = $2. -/
def findRouteByYear (routes : List RouteRow) (rid : String) (y : Int) :
    Option RouteRow :=
  routes.find? (fun r => r.routeId == rid && r.year == y)

/-- All rows of `routes` with the given route id. -/
def routesFor (routes : List RouteRow) (rid : String) : List RouteRow :=
  routes.filter (fun r => r.routeId == rid)

/-- The fallback query of computeAndSave:
SELECT .. FROM routes WHERE route_id = $1 ORDER BY year DESC LIMIT 1
(the routes table holds one row per (route_id, year), so the maximal-year
row is unique). -/
def pickNewer (acc : Option RouteRow) (r : RouteRow) : Option RouteRow :=
  match acc with
  | none => some r
  | some b => if b.year < r.year then some r else some b

def latestRouteFor (routes : List RouteRow) (rid : String) : Option RouteRow :=
  (routesFor routes rid).foldl pickNewer none

/-- Route-data resolution of computeAndSave: exact-year lookup first, then
the fallback to the most recent year for that route id. The only error path
is a route id with no rows at all (the further branch distinguishing a
message listing available years is dead code: the fallback query has no year
constraint, so it returns a row whenever any row for the id exists). -/
def resolveRoute (routes : List RouteRow) (rid : String) (y : Int) :
    Option RouteRow :=
  match findRouteByYear routes rid y with
  | some r => some r
  | none => latestRouteFor routes rid

/-- Error thrown by computeAndSave when the route id has no rows. -/
inductive ComputeErr where
  | routeNotFound (routeId : String)
deriving DecidableEq

/-- `PostgresShipComplianceRepository.save` on an id-less ShipCompliance:
INSERT .. ON CONFLICT (ship_id, year) DO UPDATE SET cb_gco2eq = EXCLUDED. -/
def upsertShipCompliance (table : List SCRow) (row : SCRow) : List SCRow :=
  if table.any (fun r => r.shipId == row.shipId && r.year == row.year) then
    table.map (fun r =>
      if r.shipId == row.shipId && r.year == row.year then
        { r with cbGco2eq := row.cbGco2eq }
      else r)
  else table ++ [row]

/-- `PostgresShipComplianceRepository.computeAndSave`: resolve route data,
compute cb = (COMPLIANCE_TARGET - ghgIntensity) * fuelConsumption, and
upsert the ship_compliance row for (shipId, year). -/
def computeAndSave (routes : List RouteRow) (table : List SCRow)
    (shipId : String) (year : Int) (routeId : String) :
    Except ComputeErr (List SCRow × ℚ) :=
  match resolveRoute routes routeId year with
  | none => .error (.routeNotFound routeId)
  | some r =>
    let cb := (COMPLIANCE_TARGET - r.ghgIntensity) * r.fuelConsumption
    .ok (upsertShipCompliance table (SCRow.mk shipId year cb), cb)

/-- Number of ship_compliance rows for one (shipId, year) key. -/
def scKeyCount (table : List SCRow) (shipId : String) (year : Int) : Nat :=
  (table.filter (fun r => r.shipId == shipId && r.year == year)).length

theorem foldl_pickNewer_some (l : List RouteRow) :
    ∀ b : RouteRow, ∃ r, l.foldl pickNewer (some b) = some r ∧
      (r = b ∨ r ∈ l) ∧ b.year ≤ r.year ∧ ∀ x ∈ l, x.year ≤ r.year := by
  induction l with
  | nil =>
    intro b
    exact ⟨b, rfl, Or.inl rfl, le_refl _, by simp⟩
  | cons x rest ih =>
    intro b
    simp only [List.foldl_cons]
    by_cases h : b.year < x.year
    · obtain ⟨r, hfold, hmem, hble, hall⟩ := ih x
      refine ⟨r, by simpa [pickNewer, if_pos h] using hfold, ?_, by linarith, ?_⟩
      · rcases hmem with rfl | hm
        · exact Or.inr (List.mem_cons_self _ _)
        · exact Or.inr (List.mem_cons_of_mem _ hm)
      · intro y hy
        rcases List.mem_cons.mp hy with rfl | hy2
        · exact hble
        · exact hall y hy2
    · obtain ⟨r, hfold, hmem, hble, hall⟩ := ih b
      refine ⟨r, by simpa [pickNewer, if_neg h] using hfold, ?_, hble, ?_⟩
      · rcases hmem with rfl | hm
        · exact Or.inl rfl
        · exact Or.inr (List.mem_cons_of_mem _ hm)
      · intro y hy
        rcases List.mem_cons.mp hy with rfl | hy2
        · exact le_trans (not_lt.mp h) hble
        · exact hall y hy2

theorem latestRouteFor_spec (routes : List RouteRow) (rid : String)
    (r : RouteRow) (h : latestRouteFor routes rid = some r) :
    r ∈ routesFor routes rid ∧
    ∀ x ∈ routesFor routes rid, x.year ≤ r.year := by
  cases hl : routesFor routes rid with
  | nil =>
    rw [latestRouteFor, hl] at h
    exact absurd h (by simp)
  | cons x rest =>
    rw [latestRouteFor, hl] at h
    simp only [List.foldl_cons] at h
    have hpick : pickNewer none x = some x := rfl
    rw [hpick] at h
    obtain ⟨r2, hfold, hmem, hble, hall⟩ := foldl_pickNewer_some rest x
    rw [hfold] at h
    obtain rfl := (Option.some.injEq _ _).mp h
    constructor
    · rcases hmem with rfl | hm
      · exact List.mem_cons_self _ _
      · exact List.mem_cons_of_mem _ hm
    · intro y hy
      rcases List.mem_cons.mp hy with rfl | hy2
      · exact hble
      · exact hall y hy2

theorem latestRouteFor_none (routes : List RouteRow) (rid : String)
    (h : routesFor routes rid = []) : latestRouteFor routes rid = none := by
  rw [latestRouteFor, h]
  rfl

theorem findRouteByYear_none_of_no_rows (routes : List RouteRow) (rid : String)
    (y : Int) (h : routesFor routes rid = []) :
    findRouteByYear routes rid y = none := by
  rw [findRouteByYear, List.find?_eq_none]
  intro x hx hpx
  have hxid : (x.routeId == rid) = true := by
    simp only [Bool.and_eq_true] at hpx
    exact hpx.1
  have hmem : x ∈ routesFor routes rid :=
    List.mem_filter.mpr ⟨hx, hxid⟩
  rw [h] at hmem
  exact absurd hmem (List.not_mem_nil x)

theorem upsert_comp_pred (row : SCRow) :
    ((fun r : SCRow => r.shipId == row.shipId && r.year == row.year) ∘
      (fun r => if r.shipId == row.shipId && r.year == row.year then
        { r with cbGco2eq := row.cbGco2eq } else r)) =
    (fun r : SCRow => r.shipId == row.shipId && r.year == row.year) := by
  funext r
  by_cases hr : (r.shipId == row.shipId && r.year == row.year) = true
  · simp only [Function.comp_apply, if_pos hr]
  · simp only [Function.comp_apply, if_neg hr]

theorem upsert_lookup (table : List SCRow) (row : SCRow) :
    ∃ r, findByShipAndYear (upsertShipCompliance table row) row.shipId row.year
        = some r ∧ r.cbGco2eq = row.cbGco2eq := by
  unfold upsertShipCompliance findByShipAndYear
  by_cases hany :
      table.any (fun r => r.shipId == row.shipId && r.year == row.year) = true
  · rw [if_pos hany]
    obtain ⟨x, hx, hpx⟩ := List.any_eq_true.mp hany
    cases hfind :
        table.find? (fun r => r.shipId == row.shipId && r.year == row.year) with
    | none => exact absurd (List.find?_eq_none.mp hfind x hx) (by simp [hpx])
    | some r0 =>
      have hp0 := List.find?_some hfind
      rw [List.find?_map, upsert_comp_pred row, hfind]
      refine ⟨{ r0 with cbGco2eq := row.cbGco2eq }, ?_, rfl⟩
      have hfr0 :
          (if (r0.shipId == row.shipId && r0.year == row.year) = true then
            { r0 with cbGco2eq := row.cbGco2eq } else r0) =
          { r0 with cbGco2eq := row.cbGco2eq } := if_pos hp0
      rw [Option.map_some', hfr0]
  · rw [if_neg hany, List.find?_append]
    have hnone :
        table.find? (fun r => r.shipId == row.shipId && r.year == row.year)
          = none := by
      rw [List.find?_eq_none]
      intro x hx hpx
      exact hany (List.any_eq_true.mpr ⟨x, hx, hpx⟩)
    rw [hnone]
    refine ⟨row, ?_, rfl⟩
    simp [List.find?]

theorem upsert_count (table : List SCRow) (row : SCRow)
    (hle : scKeyCount table row.shipId row.year ≤ 1) :
    scKeyCount (upsertShipCompliance table row) row.shipId row.year = 1 := by
  unfold scKeyCount upsertShipCompliance
  unfold scKeyCount at hle
  by_cases hany :
      table.any (fun r => r.shipId == row.shipId && r.year == row.year) = true
  · rw [if_pos hany, List.filter_map, upsert_comp_pred row, List.length_map]
    obtain ⟨x, hx, hpx⟩ := List.any_eq_true.mp hany
    have hge : 1 ≤ (table.filter
        (fun r => r.shipId == row.shipId && r.year == row.year)).length := by
      have hmem : x ∈ table.filter
          (fun r => r.shipId == row.shipId && r.year == row.year) :=
        List.mem_filter.mpr ⟨hx, hpx⟩
      exact List.length_pos.mpr (List.ne_nil_of_mem hmem)
    exact le_antisymm hle hge
  · rw [if_neg hany, List.filter_append]
    have hnil : table.filter
        (fun r => r.shipId == row.shipId && r.year == row.year) = [] := by
      rw [List.filter_eq_nil_iff]
      intro x hx hpx
      exact hany (List.any_eq_true.mpr ⟨x, hx, hpx⟩)
    rw [hnil]
    simp [List.filter]

/-- Claim C7: whenever computeAndSave resolves route data, the stored balance
is (COMPLIANCE_TARGET - ghgIntensity) * fuelConsumption for the resolved row,
and the write has upsert semantics: the (shipId, year) key afterwards holds
exactly one row containing the newly computed value (so recomputation
replaces, never duplicates). -/
theorem compute_and_save_upsert (routes : List RouteRow) (table : List SCRow)
    (shipId : String) (year : Int) (routeId : String) (r : RouteRow)
    (hres : resolveRoute routes routeId year = some r) :
    ∃ table2,
      computeAndSave routes table shipId year routeId =
        .ok (table2, (COMPLIANCE_TARGET - r.ghgIntensity) * r.fuelConsumption) ∧
      (∃ row, findByShipAndYear table2 shipId year = some row ∧
        row.cbGco2eq = (COMPLIANCE_TARGET - r.ghgIntensity) * r.fuelConsumption) ∧
      (scKeyCount table shipId year ≤ 1 → scKeyCount table2 shipId year = 1) := by
  refine ⟨upsertShipCompliance table
    (SCRow.mk shipId year
      ((COMPLIANCE_TARGET - r.ghgIntensity) * r.fuelConsumption)), ?_, ?_, ?_⟩
  · rw [computeAndSave, hres]
  · exact upsert_lookup table
      (SCRow.mk shipId year
        ((COMPLIANCE_TARGET - r.ghgIntensity) * r.fuelConsumption))
  · intro hle
    exact upsert_count table
      (SCRow.mk shipId year
        ((COMPLIANCE_TARGET - r.ghgIntensity) * r.fuelConsumption)) hle

/-- Concrete route table for the C7 witness. -/
def demoRoutes : List RouteRow := [RouteRow.mk "R001" 2024 90 100]

/-- Witness for C7: computing for ship S1 in 2024 via route R001 stores
(COMPLIANCE_TARGET - 90) * 100 as the single row for (S1, 2024). -/
theorem compute_and_save_upsert_witness :
    resolveRoute demoRoutes "R001" 2024 = some (RouteRow.mk "R001" 2024 90 100) ∧
    ∃ table2,
      computeAndSave demoRoutes [] "S1" 2024 "R001" =
        .ok (table2, (COMPLIANCE_TARGET - 90) * 100) ∧
      (∃ row, findByShipAndYear table2 "S1" 2024 = some row ∧
        row.cbGco2eq = (COMPLIANCE_TARGET - 90) * 100) ∧
      (scKeyCount [] "S1" 2024 ≤ 1 → scKeyCount table2 "S1" 2024 = 1) :=
  ⟨by rfl,
   compute_and_save_upsert demoRoutes [] "S1" 2024 "R001"
     (RouteRow.mk "R001" 2024 90 100) (by rfl)⟩

/-- Route table holding data for R001 only in 2023, used against C8. -/
def c8Routes : List RouteRow := [RouteRow.mk "R001" 2023 90 100]

/-- Counterexample to C8: no route data exists for R001 in the requested
period 2025, yet computeAndSave does not fail: it falls back to the 2023 row
and writes a ledger entry computed from that other period's data. -/
theorem compute_no_data_counterexample :
    findRouteByYear c8Routes "R001" 2025 = none ∧
    computeAndSave c8Routes [] "S1" 2025 "R001" =
      .ok ([SCRow.mk "S1" 2025 ((COMPLIANCE_TARGET - 90) * 100)],
        (COMPLIANCE_TARGET - 90) * 100) ∧
    (COMPLIANCE_TARGET - 90) * 100 = -1658 / 25 := by
  refine ⟨by rfl, by rfl, ?_⟩
  norm_num [COMPLIANCE_TARGET]

/-- Claim C8 as amended: computeAndSave fails (with the route-not-found
error, writing nothing) exactly when the route id has no activity data for
any period; when data exists only for other periods, it does not fail but
derives the balance from the most recent such period's row. -/
theorem compute_not_found_amended :
    (∀ (routes : List RouteRow) (table : List SCRow) (shipId : String)
        (year : Int) (routeId : String),
      routesFor routes routeId = [] →
      computeAndSave routes table shipId year routeId =
        .error (.routeNotFound routeId)) ∧
    (∀ (routes : List RouteRow) (table : List SCRow) (shipId : String)
        (year : Int) (routeId : String) (r : RouteRow),
      findRouteByYear routes routeId year = none →
      latestRouteFor routes routeId = some r →
      r ∈ routesFor routes routeId ∧
      (∀ x ∈ routesFor routes routeId, x.year ≤ r.year) ∧
      computeAndSave routes table shipId year routeId =
        .ok (upsertShipCompliance table
          (SCRow.mk shipId year
            ((COMPLIANCE_TARGET - r.ghgIntensity) * r.fuelConsumption)),
          (COMPLIANCE_TARGET - r.ghgIntensity) * r.fuelConsumption)) := by
  constructor
  · intro routes table shipId year routeId h
    have h1 := findRouteByYear_none_of_no_rows routes routeId year h
    have h2 := latestRouteFor_none routes routeId h
    rw [computeAndSave, resolveRoute, h1, h2]
  · intro routes table shipId year routeId r h1 h2
    obtain ⟨hmem, hmax⟩ := latestRouteFor_spec routes routeId r h2
    refine ⟨hmem, hmax, ?_⟩
    rw [computeAndSave, resolveRoute, h1, h2]

/-- Witness for the amended C8: an unknown route id R999 makes computeAndSave
fail with the route-not-found error, and the 2025 request against data that
exists only for 2023 resolves the 2023 row (the most recent one). -/
theorem compute_not_found_amended_witness :
    routesFor c8Routes "R999" = [] ∧
    computeAndSave c8Routes [] "S1" 2025 "R999" =
      .error (.routeNotFound "R999") ∧
    findRouteByYear c8Routes "R001" 2025 = none ∧
    latestRouteFor c8Routes "R001" = some (RouteRow.mk "R001" 2023 90 100) ∧
    (RouteRow.mk "R001" 2023 90 100) ∈ routesFor c8Routes "R001" ∧
    (∀ x ∈ routesFor c8Routes "R001",
      x.year ≤ (RouteRow.mk "R001" 2023 90 100).year) ∧
    computeAndSave c8Routes [] "S1" 2025 "R001" =
      .ok (upsertShipCompliance []
        (SCRow.mk "S1" 2025 ((COMPLIANCE_TARGET - 90) * 100)),
        (COMPLIANCE_TARGET - 90) * 100) := by
  have hfall := compute_not_found_amended.2 c8Routes [] "S1" 2025 "R001"
    (RouteRow.mk "R001" 2023 90 100) (by rfl) (by rfl)
  exact ⟨by rfl,
    compute_not_found_amended.1 c8Routes [] "S1" 2025 "R999" (by rfl),
    by rfl, by rfl, hfall.1, hfall.2.1, hfall.2.2⟩
